import Mathlib

/-!
Verification development for the IMAP Message-ID search tool
(`imap_mid_search.py` batch CLI and `email_search.py` interactive variant).

Strings from the Python sources are modelled as `List Char`; remote IMAP
operations (header search in two request encodings, date-range search,
header/full-message fetches) are modelled by a pure `Server` record of
response functions, and every engine function additionally returns the
list of remote requests it issued, in order.
-/

namespace ImapMid

/-! ## Python string primitives -/

/-- Characters treated as whitespace by Python's `str.strip()` (ASCII range). -/
def isPySpace (c : Char) : Bool :=
  c == ' ' || c == '\t' || c == '\n' || c == '\r' || c == '\x0b' || c == '\x0c'

/-- The two delimiter characters stripped by `str.strip("<>")`. -/
def isAngle (c : Char) : Bool := c == '<' || c == '>'

/-- Drop the longest suffix whose characters satisfy `p` (right-hand strip). -/
def dropWhileEnd (p : Char → Bool) (l : List Char) : List Char :=
  (l.reverse.dropWhile p).reverse

/-- Python's two-sided `str.strip(chars)`. -/
def pyStrip (p : Char → Bool) (l : List Char) : List Char :=
  dropWhileEnd p (l.dropWhile p)

/-- Python's `str.strip()` (whitespace). -/
def pyStripWs (l : List Char) : List Char := pyStrip isPySpace l

/-- Python's `str.strip("<>")`. -/
def stripAngles (l : List Char) : List Char := pyStrip isAngle l

/-- Python's `str.lower()` (character-wise). -/
def lowerL (l : List Char) : List Char := l.map Char.toLower

/-- Does `l` start with the pattern `pat`? -/
def startsWithSeq : List Char → List Char → Bool
  | [], _ => true
  | _ :: _, [] => false
  | p :: ps, x :: xs => p == x && startsWithSeq ps xs

/-- Python's substring containment `pat in l` (contiguous). -/
def containsSeq (pat : List Char) : List Char → Bool
  | [] => pat.isEmpty
  | c :: rest => startsWithSeq pat (c :: rest) || containsSeq pat rest

/-! ## Identifier Normalizer

`normalize_mid` in `imap_mid_search.py` (identical body to
`IMAPEmailSearcher._normalize_message_id` in `email_search.py`):
`bare = mid.strip().strip("<>").strip(); return bare, f"<{bare}>"`. -/

def normalize_mid (mid : List Char) : List Char × List Char :=
  let bare := pyStripWs (stripAngles (pyStripWs mid))
  (bare, '<' :: (bare ++ ['>']))

/-- Alias used by `email_search.py`; the source body is character-identical. -/
def _normalize_message_id (message_id : List Char) : List Char × List Char :=
  normalize_mid message_id

/-! ## Timestamp Extractor

`parse_mid_timestamp` strips the identifier, matches the regular expression
`^(\d{14})[.\-@]`, and feeds the 14 digits to
`datetime.strptime(_, "%Y%m%d%H%M%S")`, returning `None` on `ValueError`.
Since `%Y` consumes exactly 4 digits and each of `%m%d%H%M%S` consumes 1 or 2,
a successful parse of a 14-digit string forces the 4+2+2+2+2+2 alignment, so
success is equivalent to the field-wise calendar checks below (`datetime`
additionally requires year ≥ 1, day within the month, and second ≤ 59). -/

structure PyDateTime where
  year : Nat
  month : Nat
  day : Nat
  hour : Nat
  minute : Nat
  second : Nat
deriving DecidableEq, Repr

def isLeapYear (y : Nat) : Bool :=
  (y % 4 == 0 && y % 100 != 0) || y % 400 == 0

def daysInMonth (y m : Nat) : Nat :=
  if m == 2 then (if isLeapYear y then 29 else 28)
  else if m == 4 || m == 6 || m == 9 || m == 11 then 30
  else 31

/-- Validity enforced by `datetime.strptime(_, "%Y%m%d%H%M%S")` on a
14-digit input plus `datetime` construction. -/
def validDateTime (d : PyDateTime) : Bool :=
  1 ≤ d.year && d.year ≤ 9999 &&
  1 ≤ d.month && d.month ≤ 12 &&
  1 ≤ d.day && d.day ≤ daysInMonth d.year d.month &&
  d.hour ≤ 23 && d.minute ≤ 59 && d.second ≤ 59

/-- Numeric value of a digit run (the digits are already checked). -/
def digitsToNat (l : List Char) : Nat :=
  l.foldl (fun acc c => acc * 10 + (c.toNat - 48)) 0

/-- Field-wise reading of a 14-digit `YYYYMMDDHHMMSS` string. -/
def fields14 (d14 : List Char) : PyDateTime :=
  { year := digitsToNat (d14.take 4)
    month := digitsToNat ((d14.drop 4).take 2)
    day := digitsToNat ((d14.drop 6).take 2)
    hour := digitsToNat ((d14.drop 8).take 2)
    minute := digitsToNat ((d14.drop 10).take 2)
    second := digitsToNat (d14.drop 12) }

/-- Model of `datetime.strptime(d14, "%Y%m%d%H%M%S")` on a 14-digit string. -/
def strptime14 (d14 : List Char) : Option PyDateTime :=
  if validDateTime (fields14 d14) then some (fields14 d14) else none

/-- Accepted separator characters of the regex character class `[.\-@]`. -/
def sepChars : List Char := ['.', '-', '@']

/-- `parse_mid_timestamp` in `imap_mid_search.py` (identical body to
`IMAPEmailSearcher._parse_mid_timestamp`). -/
def parse_mid_timestamp (mid : List Char) : Option PyDateTime :=
  let s := pyStripWs (stripAngles (pyStripWs mid))
  let d14 := s.take 14
  let sepOk : Bool :=
    match s.drop 14 with
    | c :: _ => sepChars.contains c
    | [] => false
  if d14.length == 14 && d14.all Char.isDigit && sepOk then strptime14 d14
  else none

def _parse_mid_timestamp (message_id : List Char) : Option PyDateTime :=
  parse_mid_timestamp message_id

/-! ## Date formatting and `timedelta(days=1)` arithmetic -/

def monthAbbr (m : Nat) : List Char :=
  match m with
  | 1 => 'J' :: ['a', 'n']
  | 2 => 'F' :: ['e', 'b']
  | 3 => 'M' :: ['a', 'r']
  | 4 => 'A' :: ['p', 'r']
  | 5 => 'M' :: ['a', 'y']
  | 6 => 'J' :: ['u', 'n']
  | 7 => 'J' :: ['u', 'l']
  | 8 => 'A' :: ['u', 'g']
  | 9 => 'S' :: ['e', 'p']
  | 10 => 'O' :: ['c', 't']
  | 11 => 'N' :: ['o', 'v']
  | 12 => 'D' :: ['e', 'c']
  | _ => []

def padToWidth (w : Nat) (n : Nat) : List Char :=
  let ds := Nat.toDigits 10 n
  List.replicate (w - ds.length) '0' ++ ds

/-- `imap_date`: `dt.strftime("%d-%b-%Y")`, e.g. `12-Feb-2024`. -/
def imap_date (d : PyDateTime) : List Char :=
  padToWidth 2 d.day ++ '-' :: (monthAbbr d.month ++ '-' :: padToWidth 4 d.year)

/-- `dt - timedelta(days=1)` (time-of-day fields unchanged). -/
def dtSubOneDay (d : PyDateTime) : PyDateTime :=
  if 1 < d.day then { d with day := d.day - 1 }
  else if 1 < d.month then
    { d with month := d.month - 1, day := daysInMonth d.year (d.month - 1) }
  else { d with year := d.year - 1, month := 12, day := 31 }

/-- `dt + timedelta(days=1)` (time-of-day fields unchanged). -/
def dtAddOneDay (d : PyDateTime) : PyDateTime :=
  if d.day < daysInMonth d.year d.month then { d with day := d.day + 1 }
  else if d.month < 12 then { d with month := d.month + 1, day := 1 }
  else { d with year := d.year + 1, month := 1, day := 1 }

/-! ## Remote session model

A selected mailbox is modelled by a pure `Server` of response functions.
`none` models a failed remote call (`typ != "OK"` / exception / empty
`msg_data`); a header or range search that succeeds returns the parsed list
of sequence numbers (`data[0].split()`), which may be empty.
Fetch-and-decode of header fields and of full messages is the external
collaborator boundary of the spec (§6), so the server directly returns the
decoded values. Every engine function also returns the ordered list of
remote requests it issued. -/

/-- The two search-expression encodings used by the sources:
`search(None, 'HEADER', key, value)` (structured) and
`search(None, f'(HEADER "key" "value")')` (quoted literal). -/
inductive Encoding where
  | structured
  | quoted
deriving DecidableEq, Repr

inductive Req where
  /-- one header search request in the given encoding -/
  | header : Encoding → List Char → List Char → Req
  /-- one `SINCE since BEFORE before` range search request -/
  | range : List Char → List Char → Req
  /-- fetch of `FROM TO SUBJECT DATE MESSAGE-ID` header fields -/
  | fetchHdrs : Nat → Req
  /-- fetch of the `MESSAGE-ID` header block only -/
  | fetchMidHdr : Nat → Req
  /-- fetch of the full message (`RFC822`) -/
  | fetchFull : Nat → Req
deriving DecidableEq, Repr

/-- Decoded result record of `_fetch_email_details` in `email_search.py`. -/
structure EmailInfo where
  message_number : Nat
  message_id : List Char
  subject : List Char
  «from» : List Char
  «to» : List Char
  date : List Char
  body : List Char
deriving DecidableEq, Repr

structure Server where
  searchHeader : Encoding → List Char → List Char → Option (List Nat)
  searchRange : List Char → List Char → Option (List Nat)
  fetchHdrs : Nat → Option (List Char × List Char × List Char × List Char)
  fetchMidHdr : Nat → Option (List Char)
  fetchFull : Nat → Option EmailInfo

/-- Header-field names appearing in the sources. -/
def midKeyUpper : List Char := "Message-ID".toList
def midKeyLower : List Char := "Message-Id".toList
def refKey : List Char := "References".toList
def inReplyKey : List Char := "In-Reply-To".toList

/-! ## Tiered Query Builder (`imap_mid_search.py`) -/

/-- `try_search_header`: two tries per (key, value) — structured encoding
first, then the quoted-literal encoding — returning on the first try whose
status is OK and whose result set is non-empty (identical body to
`_search_header_generic` in `email_search.py`). -/
def try_search_header (srv : Server) (key value : List Char) : List Nat × List Req :=
  match srv.searchHeader Encoding.structured key value with
  | some (n :: ns) => (n :: ns, [Req.header Encoding.structured key value])
  | _ =>
    match srv.searchHeader Encoding.quoted key value with
    | some (n :: ns) =>
      (n :: ns, [Req.header Encoding.structured key value, Req.header Encoding.quoted key value])
    | _ => ([], [Req.header Encoding.structured key value, Req.header Encoding.quoted key value])

/-- The nested `for key: for val:` loops of `search_by_mid_in_selected`,
over an explicit list of (key, value) attempts; stops at the first attempt
whose result set is non-empty. -/
def searchHeaderList (srv : Server) : List (List Char × List Char) → List Nat × List Req
  | [] => ([], [])
  | (k, v) :: rest =>
    match try_search_header srv k v with
    | (n :: ns, tr) => (n :: ns, tr)
    | ([], tr) =>
      let r := searchHeaderList srv rest
      (r.1, tr ++ r.2)

/-- The four `ExactHeaderMatch` attempts:
`for key in ("Message-ID", "Message-Id"): for val in (with_br, bare)`. -/
def midPairs (bare withBr : List Char) : List (List Char × List Char) :=
  [(midKeyUpper, withBr), (midKeyUpper, bare), (midKeyLower, withBr), (midKeyLower, bare)]

/-- The four `ReferenceChainMatch` attempts:
`for key in ("References", "In-Reply-To"): for val in (with_br, bare)`. -/
def refPairs (bare withBr : List Char) : List (List Char × List Char) :=
  [(refKey, withBr), (refKey, bare), (inReplyKey, withBr), (inReplyKey, bare)]

/-- `search_by_mid_in_selected`: exact-header tier, then reference-chain
tier, first non-empty result wins. -/
def search_by_mid_in_selected (srv : Server) (mid : List Char) : List Nat × List Req :=
  let p := normalize_mid mid
  match searchHeaderList srv (midPairs p.1 p.2) with
  | (n :: ns, tr) => (n :: ns, tr)
  | ([], tr) =>
    let r := searchHeaderList srv (refPairs p.1 p.2)
    (r.1, tr ++ r.2)

/-- `fetch_headers`: on any fetch failure the source returns four empty
strings. -/
def fetch_headers (srv : Server) (n : Nat) :
    List Char × List Char × List Char × List Char :=
  match srv.fetchHdrs n with
  | some t => t
  | none => ([], [], [], [])

/-- The sender-domain-hint filter loop of `deep_search_by_mid`: fetches the
headers of every candidate and keeps those whose From field contains the
hint case-insensitively. -/
def hintFilter (srv : Server) (h : List Char) : List Nat → List Nat × List Req
  | [] => ([], [])
  | n :: rest =>
    let f := (fetch_headers srv n).1
    let r := hintFilter srv h rest
    ((if containsSeq (lowerL h) (lowerL f) then n :: r.1 else r.1), Req.fetchHdrs n :: r.2)

/-- Pool selection of `deep_search_by_mid`: `pool = candidates`, replaced by
the filtered list only when a hint is present and the filter is non-empty. -/
def hintPool (srv : Server) (hint : Option (List Char)) (candidates : List Nat) :
    List Nat × List Req :=
  match hint with
  | none => (candidates, [])
  | some h =>
    match hintFilter srv h candidates with
    | ([], tr) => (candidates, tr)
    | (f :: fs, tr) => (f :: fs, tr)

/-- The verification loop of `deep_search_by_mid`: fetch only the
`MESSAGE-ID` header of each pool member and return the first one whose
header block textually contains the bare or bracketed identifier. -/
def verifyLoop (srv : Server) (bare withBr : List Char) : List Nat → List Nat × List Req
  | [] => ([], [])
  | n :: rest =>
    match srv.fetchMidHdr n with
    | some hdr =>
      if containsSeq bare hdr || containsSeq withBr hdr then ([n], [Req.fetchMidHdr n])
      else
        let r := verifyLoop srv bare withBr rest
        (r.1, Req.fetchMidHdr n :: r.2)
    | none =>
      let r := verifyLoop srv bare withBr rest
      (r.1, Req.fetchMidHdr n :: r.2)

/-- `deep_search_by_mid`: normal search first, then the ±1-day
time-window tier gated on the embedded timestamp. -/
def deep_search_by_mid (srv : Server) (mid : List Char) (hint : Option (List Char)) :
    List Nat × List Req :=
  match search_by_mid_in_selected srv mid with
  | (n :: ns, tr) => (n :: ns, tr)
  | ([], tr) =>
    match parse_mid_timestamp mid with
    | none => ([], tr)
    | some ts =>
      let since := imap_date (dtSubOneDay ts)
      let before := imap_date (dtAddOneDay ts)
      let tr := tr ++ [Req.range since before]
      match srv.searchRange since before with
      | none => ([], tr)
      | some [] => ([], tr)
      | some (c :: cs) =>
        let p := normalize_mid mid
        let pool := hintPool srv hint (c :: cs)
        let v := verifyLoop srv p.1 p.2 pool.1
        (v.1, tr ++ pool.2 ++ v.2)

/-- One mailbox visit of the orchestrator loop in `main`:
`nums = search_by_mid_in_selected(M, mid); if not nums:
nums = deep_search_by_mid(M, mid, from_domain_hint=hint)`. -/
def visit (srv : Server) (mid : List Char) (hint : Option (List Char)) :
    List Nat × List Req :=
  match search_by_mid_in_selected srv mid with
  | (n :: ns, tr) => (n :: ns, tr)
  | ([], tr) =>
    let d := deep_search_by_mid srv mid hint
    (d.1, tr ++ d.2)

/-! ## Mailbox Scan Orchestrator and Result Aggregator (`main`) -/

/-- One CSV row (`fieldnames` in `main`); sequence numbers are rendered in
decimal as by `num.decode("ascii")`. -/
structure Row where
  message_id : List Char
  mailbox : List Char
  seqnum : List Char
  «from» : List Char
  «to» : List Char
  subject : List Char
  date : List Char
deriving DecidableEq, Repr

/-- The row appended for an identifier that matched nowhere. -/
def emptyRow (mid : List Char) : Row :=
  { message_id := mid, mailbox := [], seqnum := [], «from» := [], «to» := [],
    subject := [], date := [] }

/-- The inner `for num in nums:` loop of `main`: one row per matched
sequence number, with headers fetched per number. -/
def rowsFor (srv : Server) (mid mbox : List Char) (nums : List Nat) : List Row :=
  nums.map fun n =>
    let h := fetch_headers srv n
    { message_id := mid, mailbox := mbox, seqnum := Nat.toDigits 10 n,
      «from» := h.1, «to» := h.2.1, subject := h.2.2.1, date := h.2.2.2 }

/-- Session model: `boxes name = none` models `select_box` failing for that
mailbox; otherwise the selected-state behavior of the mailbox. -/
structure Session where
  boxes : List Char → Option Server

/-- Domain-hint derivation in `main`:
`hint = "gmail.com" if "@gmail.com" in mid else ("cpanel.net" if "@cpanel.net" in mid else None)`. -/
def hintOf (mid : List Char) : Option (List Char) :=
  if containsSeq ("@gmail.com".toList) mid then some ("gmail.com".toList)
  else if containsSeq ("@cpanel.net".toList) mid then some ("cpanel.net".toList)
  else none

/-- The `for mbox in scan_order:` loop of `main` for one identifier:
skip unselectable mailboxes, visit the rest, stop at the first mailbox with
a non-empty result and emit its rows. -/
def scanBoxes (sess : Session) (mid : List Char) (hint : Option (List Char)) :
    List (List Char) → Option (List Row)
  | [] => none
  | mbox :: rest =>
    match sess.boxes mbox with
    | none => scanBoxes sess mid hint rest
    | some srv =>
      match (visit srv mid hint).1 with
      | [] => scanBoxes sess mid hint rest
      | n :: ns => some (rowsFor srv mid mbox (n :: ns))

/-- Rows produced for a single identifier: the matched rows of the first
matching mailbox, or one empty row when no mailbox matched. -/
def resolve_one (sess : Session) (scan_order : List (List Char)) (mid : List Char) :
    List Row :=
  match scanBoxes sess mid (hintOf mid) scan_order with
  | some rows => rows
  | none => [emptyRow mid]

/-- The whole batch loop of `main`: rows accumulate over the identifiers in
input order. -/
def run_ids (sess : Session) (scan_order : List (List Char)) (ids : List (List Char)) :
    List Row :=
  ids.flatMap (resolve_one sess scan_order)

/-! ## `load_ids` -/

/-- `s.startswith("<") and s.endswith(">")` of `load_ids`. -/
def isBracketed (s : List Char) : Bool :=
  (match s with | c :: _ => c == '<' | [] => false) &&
  (match s.getLast? with | some c => c == '>' | none => false)

/-- Per-identifier cleaning of `load_ids`: strip whitespace, then remove one
enclosing `<`…`>` pair if both delimiters are present, then strip again. -/
def cleanOne (mid : List Char) : List Char :=
  let s := pyStripWs mid
  if isBracketed s then pyStripWs (s.drop 1).dropLast else s

/-- The de-duplication loop of `load_ids` (`seen` set, order preserved). -/
def uniqAux (seen : List (List Char)) : List (List Char) → List (List Char)
  | [] => []
  | x :: xs => if x ∈ seen then uniqAux seen xs else x :: uniqAux (x :: seen) xs

/-- The raw identifier list assembled by `load_ids` before cleaning:
`--ids` arguments, then the stripped non-empty lines of `--ids-file`. -/
def rawIds (argIds : Option (List (List Char))) (fileLines : Option (List (List Char))) :
    List (List Char) :=
  (match argIds with | some l => l | none => []) ++
    (match fileLines with
     | some ls => (ls.map pyStripWs).filter (fun s => !s.isEmpty)
     | none => [])

/-- `load_ids`: clean every submitted identifier, then de-duplicate
preserving order of first occurrence. -/
def load_ids (argIds : Option (List (List Char))) (fileLines : Option (List (List Char))) :
    List (List Char) :=
  uniqAux [] ((rawIds argIds fileLines).map cleanOne)

/-! ## `email_search.py` variant (`IMAPEmailSearcher`) -/

/-- The four tries of `_search_by_message_id_once`, in source order. -/
def onceTries : List (Encoding × List Char) :=
  [(Encoding.structured, midKeyUpper), (Encoding.quoted, midKeyUpper),
   (Encoding.structured, midKeyLower), (Encoding.quoted, midKeyLower)]

/-- Run a list of single-request tries against one value, stopping at the
first try with status OK and a non-empty result set. -/
def runTries (srv : Server) (v : List Char) : List (Encoding × List Char) → List Nat × List Req
  | [] => ([], [])
  | (enc, k) :: rest =>
    match srv.searchHeader enc k v with
    | some (n :: ns) => (n :: ns, [Req.header enc k v])
    | _ =>
      let r := runTries srv v rest
      (r.1, Req.header enc k v :: r.2)

/-- `_search_by_message_id_once`: up to four single-request attempts
(two field spellings × two encodings) for one value. -/
def _search_by_message_id_once (srv : Server) (v : List Char) : List Nat × List Req :=
  runTries srv v onceTries

/-- `search_by_message_id`: exact tier with the bracketed then the bare
form; on a hit the full details of the first sequence number are fetched
(the fetch itself may fail, yielding `none`). -/
def search_by_message_id (srv : Server) (message_id : List Char) :
    Option EmailInfo × List Req :=
  let p := _normalize_message_id message_id
  match _search_by_message_id_once srv p.2 with
  | (n :: _, tr) => (srv.fetchFull n, tr ++ [Req.fetchFull n])
  | ([], tr) =>
    match _search_by_message_id_once srv p.1 with
    | (n :: _, tr2) => (srv.fetchFull n, tr ++ tr2 ++ [Req.fetchFull n])
    | ([], tr2) => (none, tr ++ tr2)

/-- The References / In-Reply-To loop of `search_by_message_id_deep`:
on the first attempt with a non-empty result set the loop returns the fetch
of its first sequence number (even when that fetch yields `none`). -/
def emailRefLoop (srv : Server) : List (List Char × List Char) →
    Option (Option EmailInfo) × List Req
  | [] => (none, [])
  | (k, v) :: rest =>
    match try_search_header srv k v with
    | (n :: _, tr) => (some (srv.fetchFull n), tr ++ [Req.fetchFull n])
    | ([], tr) =>
      let r := emailRefLoop srv rest
      (r.1, tr ++ r.2)

/-- The hint filter of the interactive variant: full details are fetched for
every candidate and a candidate is kept when the fetch succeeded and its
From field contains the hint case-insensitively. -/
def emailHintFilter (srv : Server) (h : List Char) : List Nat → List Nat × List Req
  | [] => ([], [])
  | n :: rest =>
    let keep : Bool :=
      match srv.fetchFull n with
      | some info => containsSeq (lowerL h) (lowerL info.«from»)
      | none => false
    let r := emailHintFilter srv h rest
    ((if keep then n :: r.1 else r.1), Req.fetchFull n :: r.2)

/-- Pool selection of the interactive time-window tier. -/
def emailPool (srv : Server) (hint : Option (List Char)) (candidates : List Nat) :
    List Nat × List Req :=
  match hint with
  | none => (candidates, [])
  | some h =>
    match emailHintFilter srv h candidates with
    | ([], tr) => (candidates, tr)
    | (f :: fs, tr) => (f :: fs, tr)

/-- Verification loop of the interactive time-window tier: first pool member
whose `MESSAGE-ID` header block contains the bare or bracketed identifier is
fetched in full and returned. -/
def emailVerify (srv : Server) (bare withBr : List Char) : List Nat →
    Option EmailInfo × List Req
  | [] => (none, [])
  | n :: rest =>
    match srv.fetchMidHdr n with
    | some hdr =>
      if containsSeq bare hdr || containsSeq withBr hdr then
        (srv.fetchFull n, [Req.fetchMidHdr n, Req.fetchFull n])
      else
        let r := emailVerify srv bare withBr rest
        (r.1, Req.fetchMidHdr n :: r.2)
    | none =>
      let r := emailVerify srv bare withBr rest
      (r.1, Req.fetchMidHdr n :: r.2)

/-- `search_by_message_id_deep`: normal search, then reference-chain tier,
then the ±1-day time-window tier. -/
def search_by_message_id_deep (srv : Server) (message_id : List Char)
    (hint : Option (List Char)) : Option EmailInfo × List Req :=
  match search_by_message_id srv message_id with
  | (some r, tr) => (some r, tr)
  | (none, tr) =>
    let p := _normalize_message_id message_id
    match emailRefLoop srv (refPairs p.1 p.2) with
    | (some r, tr2) => (r, tr ++ tr2)
    | (none, tr2) =>
      let tr := tr ++ tr2
      match _parse_mid_timestamp message_id with
      | none => (none, tr)
      | some ts =>
        let since := imap_date (dtSubOneDay ts)
        let before := imap_date (dtAddOneDay ts)
        let tr := tr ++ [Req.range since before]
        match srv.searchRange since before with
        | none => (none, tr)
        | some [] => (none, tr)
        | some (c :: cs) =>
          let pool := emailPool srv hint (c :: cs)
          let v := emailVerify srv p.1 p.2 pool.1
          (v.1, tr ++ pool.2 ++ v.2)

/-! ## Request observers (tier classification of a remote request) -/

/-- Requests belonging to the `ExactHeaderMatch` tier. -/
def isExactSearch : Req → Bool
  | Req.header _ k _ => k == midKeyUpper || k == midKeyLower
  | _ => false

/-- Requests belonging to the `ReferenceChainMatch` tier. -/
def isRefSearch : Req → Bool
  | Req.header _ k _ => k == refKey || k == inReplyKey
  | _ => false

/-- Requests belonging to the `TimeWindowMatch` tier (range searches). -/
def isRangeSearch : Req → Bool
  | Req.range _ _ => true
  | _ => false

/-- Spec-side formulation of order-preserving de-duplication: keep the first
occurrence of each element. -/
def dedupFirst : List (List Char) → List (List Char)
  | [] => []
  | x :: xs => x :: dedupFirst (xs.filter (fun y => y ≠ x))
termination_by l => l.length
decreasing_by
  simp only [List.length_cons]
  exact Nat.lt_succ_of_le (List.length_filter_le _ _)

/-! ## String-level lemmas -/

theorem dropWhile_cons_false {p : Char → Bool} {c : Char} {l : List Char}
    (h : p c = false) : List.dropWhile p (c :: l) = c :: l := by
  simp [List.dropWhile_cons, h]

theorem dropWhileEnd_append_false {p : Char → Bool} {c : Char} {l : List Char}
    (h : p c = false) : dropWhileEnd p (l ++ [c]) = l ++ [c] := by
  simp [dropWhileEnd, List.dropWhile_cons, h]

theorem dropWhileEnd_append_true {p : Char → Bool} {c : Char} {l : List Char}
    (h : p c = true) : dropWhileEnd p (l ++ [c]) = dropWhileEnd p l := by
  simp [dropWhileEnd, List.dropWhile_cons, h]

theorem dropWhile_append_all {p : Char → Bool} {a l : List Char}
    (h : ∀ y ∈ a, p y = true) : List.dropWhile p (a ++ l) = List.dropWhile p l := by
  induction a with
  | nil => rfl
  | cons c cs ih =>
    have hc : p c = true := h c (by simp)
    simp only [List.cons_append, List.dropWhile_cons, hc, if_pos]
    exact ih fun y hy => h y (by simp [hy])

theorem pyStripWs_wrap (l : List Char) :
    pyStripWs ('<' :: (l ++ ['>'])) = '<' :: (l ++ ['>']) := by
  have h1 : isPySpace '<' = false := by decide
  have h2 : isPySpace '>' = false := by decide
  show pyStrip isPySpace ('<' :: (l ++ ['>'])) = '<' :: (l ++ ['>'])
  rw [pyStrip, dropWhile_cons_false h1, show '<' :: (l ++ ['>']) = ('<' :: l) ++ ['>'] from rfl,
    dropWhileEnd_append_false h2]

theorem stripAngles_wrap (l : List Char) :
    stripAngles ('<' :: (l ++ ['>'])) = stripAngles l := by
  have h1 : isAngle '<' = true := by decide
  have h2 : isAngle '>' = true := by decide
  show pyStrip isAngle ('<' :: (l ++ ['>'])) = pyStrip isAngle l
  rw [pyStrip, pyStrip, List.dropWhile_cons, if_pos h1, List.dropWhile_append]
  by_cases he : (List.dropWhile isAngle l).isEmpty
  · simp only [he, if_pos]
    rw [List.isEmpty_iff] at he
    rw [he]
    simp [dropWhileEnd, List.dropWhile_cons, h2]
  · simp only [he]
    rw [if_neg (by simp [he]), dropWhileEnd_append_true h2]

theorem mem_dropWhileEnd {p : Char → Bool} {l : List Char} {y : Char}
    (h : y ∈ dropWhileEnd p l) : y ∈ l := by
  unfold dropWhileEnd at h
  rw [List.mem_reverse] at h
  have := (List.dropWhile_sublist p (l := l.reverse)).mem h
  rwa [List.mem_reverse] at this

theorem mem_pyStrip {p : Char → Bool} {l : List Char} {y : Char}
    (h : y ∈ pyStrip p l) : y ∈ l :=
  (List.dropWhile_sublist p (l := l)).mem (mem_dropWhileEnd h)

theorem dropWhile_all_true {p : Char → Bool} {b : List Char}
    (h : ∀ y ∈ b, p y = true) : List.dropWhile p b = [] := by
  have := dropWhile_append_all (l := []) h
  simpa using this

theorem dropWhile_all_false {p : Char → Bool} {l : List Char}
    (h : ∀ y ∈ l, p y = false) : List.dropWhile p l = l := by
  cases l with
  | nil => rfl
  | cons c cs => exact dropWhile_cons_false (h c (by simp))

theorem dropWhileEnd_all_false {p : Char → Bool} {l : List Char}
    (h : ∀ y ∈ l, p y = false) : dropWhileEnd p l = l := by
  unfold dropWhileEnd
  rw [dropWhile_all_false fun y hy => h y (List.mem_reverse.mp hy), List.reverse_reverse]

theorem dropWhileEnd_append_all {p : Char → Bool} {l b : List Char}
    (h : ∀ y ∈ b, p y = true) : dropWhileEnd p (l ++ b) = dropWhileEnd p l := by
  unfold dropWhileEnd
  rw [List.reverse_append, dropWhile_append_all fun y hy => h y (List.mem_reverse.mp hy)]

/-! ## Claim C5 — bracketed and bare submission

The claim quantifies over every identifier string; it fails when interior
whitespace shields an interior delimiter from the angle-strip pass, because
the added outer pair prevents the inner whitespace from being trimmed before
the angle characters are stripped. -/

def c5CtrInput : List Char := " <a".toList

/-- C5 counterexample: for the raw input consisting of a space, `<`, `a`,
wrapping it in `<` … `>` changes the Normalizer's bare form (`<a` versus
`a`), so the claimed equation is false at this input. -/
theorem C5_counterexample :
    (normalize_mid ('<' :: (c5CtrInput ++ ['>']))).1 ≠ (normalize_mid c5CtrInput).1 := by
  decide

/-- C5 (amended): for every identifier string with no surrounding
whitespace, the Normalizer's bare form of the identifier wrapped in
enclosing delimiters equals the bare form of the identifier itself. -/
theorem C5_wrap_invariant (s : List Char) (hs : pyStripWs s = s) :
    (normalize_mid ('<' :: (s ++ ['>']))).1 = (normalize_mid s).1 := by
  show pyStripWs (stripAngles (pyStripWs ('<' :: (s ++ ['>'])))) =
    pyStripWs (stripAngles (pyStripWs s))
  rw [pyStripWs_wrap, stripAngles_wrap, hs]

/-- C5 witness: the amended theorem applied at the concrete identifier
`abc`. -/
theorem C5_witness :
    pyStripWs ("abc".toList) = "abc".toList ∧
    (normalize_mid ('<' :: ("abc".toList ++ ['>']))).1 = (normalize_mid ("abc".toList)).1 :=
  ⟨by decide, C5_wrap_invariant ("abc".toList) (by decide)⟩

/-! ## Claim C6 — the bare form and delimiter characters

Interior delimiter characters survive normalization, so the bare form is
not delimiter-free in general; moreover the Normalizer strips every
enclosing delimiter character, not just a single pair. -/

def c6CtrInput : List Char := "a<b".toList

/-- C6 counterexample: the bare form of the raw input `a<b` is `a<b`
itself, which contains the delimiter character `<`, so the claimed
invariant is false at this input. -/
theorem C6_counterexample :
    ((normalize_mid c6CtrInput).1.any isAngle) = true := by
  decide

/-- C6 (amended): for every raw input whose whitespace-trimmed form splits
as a run of delimiter characters, a delimiter-free core, and another run of
delimiter characters, the Normalizer strips all of the enclosing delimiter
characters: the bare form is the whitespace-trimmed core, and it contains
no delimiter character. -/
theorem C6_enclosing_strip (x a c b : List Char)
    (hx : pyStripWs x = a ++ c ++ b)
    (ha : ∀ y ∈ a, isAngle y = true)
    (hb : ∀ y ∈ b, isAngle y = true)
    (hc : ∀ y ∈ c, isAngle y = false) :
    (normalize_mid x).1 = pyStripWs c ∧
    ∀ y ∈ (normalize_mid x).1, isAngle y = false := by
  have hstrip : stripAngles (a ++ c ++ b) = c := by
    show pyStrip isAngle (a ++ c ++ b) = c
    rw [pyStrip, List.append_assoc, dropWhile_append_all ha]
    cases c with
    | nil =>
      rw [List.nil_append, dropWhile_all_true hb]
      rfl
    | cons ch c' =>
      rw [List.cons_append, dropWhile_cons_false (hc ch (by simp)),
        show ch :: (c' ++ b) = (ch :: c') ++ b from rfl, dropWhileEnd_append_all hb]
      exact dropWhileEnd_all_false hc
  have hbare : (normalize_mid x).1 = pyStripWs c := by
    show pyStripWs (stripAngles (pyStripWs x)) = pyStripWs c
    rw [hx, hstrip]
  exact ⟨hbare, fun y hy => hc y (mem_pyStrip (hbare ▸ hy))⟩

/-- C6 witness: the amended theorem applied at the concrete raw input
`␣<abc>␣` with enclosing runs `<` and `>` around the core `abc`. -/
theorem C6_witness :
    pyStripWs (" <abc> ".toList) = "<".toList ++ "abc".toList ++ ">".toList ∧
    (normalize_mid (" <abc> ".toList)).1 = pyStripWs ("abc".toList) ∧
    ∀ y ∈ (normalize_mid (" <abc> ".toList)).1, isAngle y = false := by
  refine ⟨by decide, ?_⟩
  have h := C6_enclosing_strip (" <abc> ".toList) ("<".toList) ("abc".toList) (">".toList)
    (by decide) (by decide) (by decide) (by decide)
  exact ⟨h.1, h.2⟩

/-! ## Claim C7 — the Timestamp Extractor

The extractor strips surrounding whitespace and delimiter characters before
matching the regular expression, so the claimed equivalence — phrased on the
raw identifier string — fails on bracketed submissions; the equivalence
holds of the normalized bare form. -/

def c7CtrInput : List Char := "<20240213212126.a>".toList

/-- C7 counterexample: the raw identifier `<20240213212126.a>` does not
begin with a run of 14 digits (it begins with the delimiter `<`), yet the
Timestamp Extractor returns a value for it, so the claimed equivalence is
false at this input. -/
theorem C7_counterexample :
    (parse_mid_timestamp c7CtrInput).isSome = true ∧
    (c7CtrInput.take 14).all Char.isDigit = false := by
  decide

/-- C7 (amended): for every identifier string, the Timestamp Extractor
returns a value if and only if the normalized bare form of the string
begins with a run of exactly 14 digits immediately followed by one of the
separator characters `.`, `-`, `@`, and those 14 digits form a valid
`YYYYMMDDHHMMSS` calendar timestamp; in every other case it returns no
value rather than failing. -/
theorem C7_pattern_iff (mid : List Char) :
    (parse_mid_timestamp mid).isSome = true ↔
    ∃ d14 sep rest, (normalize_mid mid).1 = d14 ++ sep :: rest ∧
      d14.length = 14 ∧ d14.all Char.isDigit = true ∧ sep ∈ sepChars ∧
      validDateTime (fields14 d14) = true := by
  have hset : (normalize_mid mid).1 = pyStripWs (stripAngles (pyStripWs mid)) := rfl
  rw [hset]
  unfold parse_mid_timestamp
  set s := pyStripWs (stripAngles (pyStripWs mid)) with hs
  dsimp only
  constructor
  · intro h
    split at h
    case isTrue hcond =>
      simp only [Bool.and_eq_true, beq_iff_eq] at hcond
      obtain ⟨⟨hlen, hdig⟩, hsep⟩ := hcond
      unfold strptime14 at h
      split at h
      case isTrue hval =>
        rcases hdrop : s.drop 14 with _ | ⟨c, rest⟩
        · rw [hdrop] at hsep
          simp at hsep
        · refine ⟨s.take 14, c, rest, ?_, hlen, hdig, ?_, hval⟩
          · rw [← hdrop]
            exact (List.take_append_drop 14 s).symm
          · rw [hdrop] at hsep
            simpa using hsep
      case isFalse => simp at h
    case isFalse => simp at h
  · rintro ⟨d14, sep, rest, hdecomp, hlen, hdig, hsep, hval⟩
    have htake : s.take 14 = d14 := by
      rw [hdecomp]
      exact List.take_left' hlen
    have hdrop : s.drop 14 = sep :: rest := by
      rw [hdecomp]
      exact List.drop_left' hlen
    rw [htake, hdrop]
    have hcond : (d14.length == 14 && d14.all Char.isDigit && sepChars.contains sep) = true := by
      simp [hlen, hdig, hsep]
    rw [if_pos hcond]
    unfold strptime14
    rw [if_pos hval]
    rfl

/-- C7 witness: the amended equivalence applied at the documented example
identifier, whose bare form starts with `20240213212126.`. -/
theorem C7_witness :
    (parse_mid_timestamp ("20240213212126.4429A161827048B0@gmail.com".toList)).isSome = true :=
  (C7_pattern_iff ("20240213212126.4429A161827048B0@gmail.com".toList)).mpr
    ⟨"20240213212126".toList, '.', "4429A161827048B0@gmail.com".toList,
      by decide, by decide, by decide, by decide, by decide⟩

/-! ## Claim C10 — de-duplication in `load_ids` -/

theorem uniqAux_congr (l : List (List Char)) :
    ∀ s1 s2 : List (List Char), (∀ a, a ∈ s1 ↔ a ∈ s2) → uniqAux s1 l = uniqAux s2 l := by
  induction l with
  | nil => intro s1 s2 _; rfl
  | cons x xs ih =>
    intro s1 s2 h
    unfold uniqAux
    by_cases hx : x ∈ s1
    · rw [if_pos hx, if_pos ((h x).mp hx)]
      exact ih s1 s2 h
    · rw [if_neg hx, if_neg (fun hc => hx ((h x).mpr hc))]
      exact congrArg (x :: ·) (ih _ _ (by intro a; simp [h a]))

theorem uniqAux_cons_filter (l : List (List Char)) :
    ∀ (x : List Char) (s : List (List Char)),
      uniqAux (x :: s) l = uniqAux s (l.filter (fun y => y ≠ x)) := by
  induction l with
  | nil => intro x s; rfl
  | cons y ys ih =>
    intro x s
    by_cases hyx : y = x
    · subst hyx
      rw [uniqAux, if_pos (by simp)]
      have hf : (y :: ys).filter (fun z => z ≠ y) = ys.filter (fun z => z ≠ y) := by
        simp [List.filter_cons]
      rw [hf, ih]
    · by_cases hys : y ∈ s
      · rw [uniqAux, if_pos (by simp [hys])]
        have hf : (y :: ys).filter (fun z => z ≠ x) = y :: ys.filter (fun z => z ≠ x) := by
          simp [List.filter_cons, hyx]
        rw [hf, uniqAux, if_pos hys, ih]
      · have hyxs : y ∉ x :: s := by simp [hyx, hys]
        rw [uniqAux, if_neg hyxs]
        have hf : (y :: ys).filter (fun z => z ≠ x) = y :: ys.filter (fun z => z ≠ x) := by
          simp [List.filter_cons, hyx]
        rw [hf, uniqAux, if_neg hys]
        refine congrArg (y :: ·) ?_
        calc uniqAux (y :: x :: s) ys
            = uniqAux (x :: y :: s) ys := by
              exact uniqAux_congr ys _ _ (by intro a; constructor <;> intro ha <;>
                simpa [or_left_comm] using ha)
          _ = uniqAux (y :: s) (ys.filter (fun z => z ≠ x)) := ih x (y :: s)

theorem uniqAux_nil_eq_dedupFirst (l : List (List Char)) :
    uniqAux [] l = dedupFirst l := by
  induction l using dedupFirst.induct with
  | case1 => simp [dedupFirst, uniqAux]
  | case2 x xs ih =>
    rw [uniqAux, if_neg (by simp), dedupFirst, uniqAux_cons_filter, ih]

theorem mem_of_mem_dedupFirst {a : List Char} :
    ∀ l : List (List Char), a ∈ dedupFirst l → a ∈ l := by
  intro l
  induction l using dedupFirst.induct with
  | case1 => intro h; simp [dedupFirst] at h
  | case2 x xs ih =>
    intro h
    rw [dedupFirst] at h
    rcases List.mem_cons.mp h with h1 | h2
    · simp [h1]
    · exact List.mem_cons_of_mem x (List.mem_filter.mp (ih h2)).1

theorem dedupFirst_nodup (l : List (List Char)) : (dedupFirst l).Nodup := by
  induction l using dedupFirst.induct with
  | case1 => simp [dedupFirst]
  | case2 x xs ih =>
    rw [dedupFirst]
    refine List.nodup_cons.mpr ⟨?_, ih⟩
    intro hmem
    have hx := (List.mem_filter.mp (mem_of_mem_dedupFirst _ hmem)).2
    simp at hx

/-- C10: the list of identifiers actually resolved is the submitted list,
cleaned, with later duplicates removed: it equals the first-occurrence
de-duplication of the cleaned submissions, hence contains each cleaned
identifier at most once; and a submission wrapped in one full delimiter
pair cleans to the same identifier as the unwrapped submission (for a
whitespace-trimmed, not-itself-bracketed identifier), so such duplicate
submissions are collapsed before resolution. -/
theorem C10_first_occurrence (argIds fileLines : Option (List (List Char)))
    (x : List Char) (hx : pyStripWs x = x) (hnb : isBracketed x = false) :
    load_ids argIds fileLines = dedupFirst ((rawIds argIds fileLines).map cleanOne) ∧
    (load_ids argIds fileLines).Nodup ∧
    cleanOne ('<' :: (x ++ ['>'])) = cleanOne x := by
  have heq : load_ids argIds fileLines = dedupFirst ((rawIds argIds fileLines).map cleanOne) :=
    uniqAux_nil_eq_dedupFirst _
  refine ⟨heq, heq ▸ dedupFirst_nodup _, ?_⟩
  have hwrap : cleanOne ('<' :: (x ++ ['>'])) = x := by
    unfold cleanOne
    rw [pyStripWs_wrap]
    have hbr : isBracketed ('<' :: (x ++ ['>'])) = true := by
      have hlast : ('<' :: (x ++ ['>'])).getLast? = some '>' := by
        show (('<' :: x) ++ ['>']).getLast? = some '>'
        exact List.getLast?_concat _
      unfold isBracketed
      rw [hlast]
      simp
    rw [if_pos hbr]
    show pyStripWs (x ++ ['>']).dropLast = x
    rw [List.dropLast_concat, hx]
  have hplain : cleanOne x = x := by
    unfold cleanOne
    rw [hx, if_neg (by simp [hnb])]
  rw [hwrap, hplain]

/-- C10 witness: the theorem applied with the identifier `abc` submitted
once bare and once bracketed. -/
theorem C10_witness :
    pyStripWs ("abc".toList) = "abc".toList ∧ isBracketed ("abc".toList) = false ∧
    (load_ids (some ["abc".toList, '<' :: ("abc".toList ++ ['>'])]) none =
        dedupFirst ((rawIds (some ["abc".toList, '<' :: ("abc".toList ++ ['>'])]) none).map cleanOne) ∧
      (load_ids (some ["abc".toList, '<' :: ("abc".toList ++ ['>'])]) none).Nodup ∧
      cleanOne ('<' :: ("abc".toList ++ ['>'])) = cleanOne ("abc".toList)) :=
  ⟨by decide, by decide,
    C10_first_occurrence (some ["abc".toList, '<' :: ("abc".toList ++ ['>'])]) none
      ("abc".toList) (by decide) (by decide)⟩

/-! ## Claim C9 — selection failures are skipped -/

theorem scanBoxes_skip (sess : Session) (mid : List Char) (hint : Option (List Char))
    (mbox : List Char) (hm : sess.boxes mbox = none) :
    ∀ l1 l2, scanBoxes sess mid hint (l1 ++ mbox :: l2) = scanBoxes sess mid hint (l1 ++ l2) := by
  intro l1
  induction l1 with
  | nil =>
    intro l2
    show scanBoxes sess mid hint (mbox :: l2) = scanBoxes sess mid hint l2
    rw [scanBoxes, hm]
  | cons a l ih =>
    intro l2
    show scanBoxes sess mid hint (a :: (l ++ mbox :: l2)) =
      scanBoxes sess mid hint (a :: (l ++ l2))
    rw [scanBoxes, scanBoxes]
    cases ha : sess.boxes a with
    | none => exact ih l2
    | some srv =>
      dsimp only
      cases hv : (visit srv mid hint).1 with
      | nil => exact ih l2
      | cons n ns => rfl

/-- C9: a mailbox whose selection fails is skipped, every subsequent
mailbox in the plan is still attempted, and the rows produced for the
identifier are exactly those produced by the plan with the failing mailbox
removed. -/
theorem C9_selection_skip (sess : Session) (l1 l2 : List (List Char))
    (mbox mid : List Char) (hm : sess.boxes mbox = none) :
    resolve_one sess (l1 ++ mbox :: l2) mid = resolve_one sess (l1 ++ l2) mid := by
  unfold resolve_one
  rw [scanBoxes_skip sess mid (hintOf mid) mbox hm l1 l2]

/-- Server used by witnesses: every search misses, every fetch fails. -/
def srvMiss : Server :=
  { searchHeader := fun _ _ _ => some []
    searchRange := fun _ _ => some []
    fetchHdrs := fun _ => none
    fetchMidHdr := fun _ => none
    fetchFull := fun _ => none }

/-- Session for the C9 witness: the mailbox named `GONE` cannot be
selected, all others can. -/
def sessSkip : Session :=
  ⟨fun b => if b == "GONE".toList then none else some srvMiss⟩

/-- C9 witness: the theorem applied to a concrete plan
`[INBOX, GONE, Trash]` whose middle mailbox fails selection. -/
theorem C9_witness :
    sessSkip.boxes ("GONE".toList) = none ∧
    resolve_one sessSkip (["INBOX".toList] ++ "GONE".toList :: ["Trash".toList]) ("x".toList) =
      resolve_one sessSkip (["INBOX".toList] ++ ["Trash".toList]) ("x".toList) :=
  ⟨rfl, C9_selection_skip sessSkip ["INBOX".toList] ["Trash".toList] ("GONE".toList)
    ("x".toList) rfl⟩

/-! ## Claim C2 — one record per identifier

The batch loop is independent across identifiers and always emits at least
one row per identifier, with exactly one empty-fielded row for an
identifier that matches nowhere; but a matched identifier yields one row
per matched sequence number, so "exactly one" fails when a search returns
several sequence numbers. -/

theorem scanBoxes_rows_ne_nil (sess : Session) (mid : List Char) (hint : Option (List Char)) :
    ∀ (order : List (List Char)) (rows : List Row),
      scanBoxes sess mid hint order = some rows → rows ≠ [] := by
  intro order
  induction order with
  | nil =>
    intro rows h
    simp [scanBoxes] at h
  | cons mbox rest ih =>
    intro rows h
    rw [scanBoxes] at h
    cases hb : sess.boxes mbox with
    | none =>
      rw [hb] at h
      exact ih rows h
    | some srv =>
      rw [hb] at h
      dsimp only at h
      cases hv : (visit srv mid hint).1 with
      | nil =>
        rw [hv] at h
        exact ih rows h
      | cons n ns =>
        rw [hv] at h
        dsimp only at h
        have hr : rowsFor srv mid mbox (n :: ns) = rows := Option.some.inj h
        rw [← hr]
        simp [rowsFor]

/-- C2 (amended): the batch produces its rows identifier by identifier,
independently of the other identifiers; every identifier contributes at
least one row; an identifier that matches nowhere contributes exactly one
row whose identifier field is populated and whose remaining fields are all
empty. (A matched identifier contributes one row per matched sequence
reference of the first matching mailbox, which may exceed one.) -/
theorem C2_per_identifier (sess : Session) (order : List (List Char))
    (ids : List (List Char)) (mid : List Char) :
    run_ids sess order ids = (ids.map (resolve_one sess order)).flatten ∧
    resolve_one sess order mid ≠ [] ∧
    (scanBoxes sess mid (hintOf mid) order = none →
      resolve_one sess order mid = [emptyRow mid]) := by
  refine ⟨List.flatMap_def _ _, ?_, ?_⟩
  · unfold resolve_one
    cases hs : scanBoxes sess mid (hintOf mid) order with
    | none => simp
    | some rows => simpa using scanBoxes_rows_ne_nil sess mid (hintOf mid) order rows hs
  · intro hnone
    unfold resolve_one
    rw [hnone]

/-! ## Trace-classification lemmas -/

theorem try_trace_eq (srv : Server) (k v : List Char) :
    (try_search_header srv k v).2 = [Req.header Encoding.structured k v] ∨
    (try_search_header srv k v).2 =
      [Req.header Encoding.structured k v, Req.header Encoding.quoted k v] := by
  unfold try_search_header
  cases h1 : srv.searchHeader Encoding.structured k v with
  | none =>
    cases h2 : srv.searchHeader Encoding.quoted k v with
    | none => right; rfl
    | some ns =>
      cases ns with
      | nil => right; rfl
      | cons a l => right; rfl
  | some ns =>
    cases ns with
    | nil =>
      cases h2 : srv.searchHeader Encoding.quoted k v with
      | none => right; rfl
      | some ms =>
        cases ms with
        | nil => right; rfl
        | cons a l => right; rfl
    | cons a l => left; rfl

theorem try_trace_shape (srv : Server) (k v : List Char) :
    ∀ r ∈ (try_search_header srv k v).2, ∃ e, r = Req.header e k v := by
  intro r hr
  rcases try_trace_eq srv k v with h | h <;> rw [h] at hr
  · exact ⟨Encoding.structured, List.mem_singleton.mp hr⟩
  · rcases List.mem_cons.mp hr with h1 | h2
    · exact ⟨Encoding.structured, h1⟩
    · exact ⟨Encoding.quoted, List.mem_singleton.mp h2⟩

theorem try_trace_length (srv : Server) (k v : List Char) :
    1 ≤ (try_search_header srv k v).2.length ∧ (try_search_header srv k v).2.length ≤ 2 := by
  rcases try_trace_eq srv k v with h | h <;> rw [h] <;> simp

theorem searchHeaderList_trace_shape (srv : Server) :
    ∀ ps : List (List Char × List Char), ∀ r ∈ (searchHeaderList srv ps).2,
      ∃ p, p ∈ ps ∧ ∃ e, r = Req.header e p.1 p.2 := by
  intro ps
  induction ps with
  | nil =>
    intro r hr
    simp [searchHeaderList] at hr
  | cons p rest ih =>
    obtain ⟨k, v⟩ := p
    intro r hr
    rw [searchHeaderList] at hr
    cases htr : try_search_header srv k v with
    | mk nums tr =>
      rw [htr] at hr
      cases nums with
      | cons n ns =>
        dsimp only at hr
        have : r ∈ (try_search_header srv k v).2 := by rw [htr]; exact hr
        obtain ⟨e, rfl⟩ := try_trace_shape srv k v r this
        exact ⟨(k, v), by simp, e, rfl⟩
      | nil =>
        dsimp only at hr
        rcases List.mem_append.mp hr with h1 | h2
        · have : r ∈ (try_search_header srv k v).2 := by rw [htr]; exact h1
          obtain ⟨e, rfl⟩ := try_trace_shape srv k v r this
          exact ⟨(k, v), by simp, e, rfl⟩
        · obtain ⟨q, hq, e, rfl⟩ := ih r h2
          exact ⟨q, by simp [hq], e, rfl⟩

theorem searchHeaderList_trace_length (srv : Server) :
    ∀ ps : List (List Char × List Char),
      (searchHeaderList srv ps).2.length ≤ 2 * ps.length := by
  intro ps
  induction ps with
  | nil => simp [searchHeaderList]
  | cons p rest ih =>
    obtain ⟨k, v⟩ := p
    rw [searchHeaderList]
    cases htr : try_search_header srv k v with
    | mk nums tr =>
      have hlen : tr.length ≤ 2 := by
        have := (try_trace_length srv k v).2
        rw [htr] at this
        exact this
      cases nums with
      | cons n ns =>
        dsimp only
        simp only [List.length_cons]
        omega
      | nil =>
        dsimp only
        simp only [List.length_append, List.length_cons]
        omega

/-- Keys of the exact-header tier are neither reference-chain keys nor
range searches. -/
theorem midPairs_trace_class (srv : Server) (b w : List Char) :
    ∀ r ∈ (searchHeaderList srv (midPairs b w)).2,
      isRefSearch r = false ∧ isRangeSearch r = false := by
  intro r hr
  obtain ⟨p, hp, e, rfl⟩ := searchHeaderList_trace_shape srv (midPairs b w) r hr
  have hkey : p.1 = midKeyUpper ∨ p.1 = midKeyLower := by
    simp only [midPairs, List.mem_cons, List.not_mem_nil, or_false] at hp
    rcases hp with rfl | rfl | rfl | rfl
    · left; rfl
    · left; rfl
    · right; rfl
    · right; rfl
  constructor
  · rcases hkey with hk | hk
    · rw [hk]
      show (midKeyUpper == refKey || midKeyUpper == inReplyKey) = false
      decide
    · rw [hk]
      show (midKeyLower == refKey || midKeyLower == inReplyKey) = false
      decide
  · rfl

theorem refPairs_trace_class (srv : Server) (b w : List Char) :
    ∀ r ∈ (searchHeaderList srv (refPairs b w)).2,
      isExactSearch r = false ∧ isRangeSearch r = false := by
  intro r hr
  obtain ⟨p, hp, e, rfl⟩ := searchHeaderList_trace_shape srv (refPairs b w) r hr
  have hkey : p.1 = refKey ∨ p.1 = inReplyKey := by
    simp only [refPairs, List.mem_cons, List.not_mem_nil, or_false] at hp
    rcases hp with rfl | rfl | rfl | rfl
    · left; rfl
    · left; rfl
    · right; rfl
    · right; rfl
  constructor
  · rcases hkey with hk | hk
    · rw [hk]
      show (refKey == midKeyUpper || refKey == midKeyLower) = false
      decide
    · rw [hk]
      show (inReplyKey == midKeyUpper || inReplyKey == midKeyLower) = false
      decide
  · rfl

theorem search_by_mid_trace_not_range (srv : Server) (mid : List Char) :
    ∀ r ∈ (search_by_mid_in_selected srv mid).2, isRangeSearch r = false := by
  intro r hr
  unfold search_by_mid_in_selected at hr
  dsimp only at hr
  cases hm : searchHeaderList srv (midPairs (normalize_mid mid).1 (normalize_mid mid).2) with
  | mk nums tr =>
    rw [hm] at hr
    cases nums with
    | cons n ns =>
      dsimp only at hr
      have : r ∈ (searchHeaderList srv
          (midPairs (normalize_mid mid).1 (normalize_mid mid).2)).2 := by
        rw [hm]; exact hr
      exact (midPairs_trace_class srv _ _ r this).2
    | nil =>
      dsimp only at hr
      rcases List.mem_append.mp hr with h1 | h2
      · have : r ∈ (searchHeaderList srv
            (midPairs (normalize_mid mid).1 (normalize_mid mid).2)).2 := by
          rw [hm]; exact h1
        exact (midPairs_trace_class srv _ _ r this).2
      · exact (refPairs_trace_class srv _ _ r h2).2

theorem hintFilter_trace_shape (srv : Server) (h : List Char) :
    ∀ cands : List Nat, ∀ r ∈ (hintFilter srv h cands).2, ∃ n, r = Req.fetchHdrs n := by
  intro cands
  induction cands with
  | nil =>
    intro r hr
    simp [hintFilter] at hr
  | cons n rest ih =>
    intro r hr
    rw [hintFilter] at hr
    dsimp only at hr
    rcases List.mem_cons.mp hr with h1 | h2
    · exact ⟨n, h1⟩
    · exact ih r h2

theorem verifyLoop_trace_shape (srv : Server) (bare withBr : List Char) :
    ∀ pool : List Nat, ∀ r ∈ (verifyLoop srv bare withBr pool).2,
      ∃ n, n ∈ pool ∧ r = Req.fetchMidHdr n := by
  intro pool
  induction pool with
  | nil =>
    intro r hr
    simp [verifyLoop] at hr
  | cons n rest ih =>
    intro r hr
    rw [verifyLoop] at hr
    cases hf : srv.fetchMidHdr n with
    | some hdr =>
      rw [hf] at hr
      dsimp only at hr
      by_cases hc : (containsSeq bare hdr || containsSeq withBr hdr) = true
      · rw [if_pos hc] at hr
        exact ⟨n, by simp, List.mem_singleton.mp hr⟩
      · rw [if_neg hc] at hr
        rcases List.mem_cons.mp hr with h1 | h2
        · exact ⟨n, by simp, h1⟩
        · obtain ⟨m, hm, rfl⟩ := ih r h2
          exact ⟨m, by simp [hm], rfl⟩
    | none =>
      rw [hf] at hr
      dsimp only at hr
      rcases List.mem_cons.mp hr with h1 | h2
      · exact ⟨n, by simp, h1⟩
      · obtain ⟨m, hm, rfl⟩ := ih r h2
        exact ⟨m, by simp [hm], rfl⟩

theorem hintPool_trace_shape (srv : Server) (hint : Option (List Char)) (cands : List Nat) :
    ∀ r ∈ (hintPool srv hint cands).2, ∃ n, r = Req.fetchHdrs n := by
  intro r hr
  unfold hintPool at hr
  cases hint with
  | none => simp at hr
  | some h =>
    dsimp only at hr
    cases hf : hintFilter srv h cands with
    | mk f tr =>
      rw [hf] at hr
      have hmem : r ∈ (hintFilter srv h cands).2 := by
        rw [hf]
        cases f with
        | nil => exact hr
        | cons a l => exact hr
      exact hintFilter_trace_shape srv h cands r hmem

theorem runTries_trace_shape (srv : Server) (v : List Char) :
    ∀ tries : List (Encoding × List Char), ∀ r ∈ (runTries srv v tries).2,
      ∃ t, t ∈ tries ∧ r = Req.header t.1 t.2 v := by
  intro tries
  induction tries with
  | nil =>
    intro r hr
    simp [runTries] at hr
  | cons t rest ih =>
    obtain ⟨enc, k⟩ := t
    intro r hr
    rw [runTries] at hr
    cases hs : srv.searchHeader enc k v with
    | some ns =>
      cases ns with
      | cons n l =>
        rw [hs] at hr
        dsimp only at hr
        exact ⟨(enc, k), by simp, List.mem_singleton.mp hr⟩
      | nil =>
        rw [hs] at hr
        dsimp only at hr
        rcases List.mem_cons.mp hr with h1 | h2
        · exact ⟨(enc, k), by simp, h1⟩
        · obtain ⟨t, ht, rfl⟩ := ih r h2
          exact ⟨t, by simp [ht], rfl⟩
    | none =>
      rw [hs] at hr
      dsimp only at hr
      rcases List.mem_cons.mp hr with h1 | h2
      · exact ⟨(enc, k), by simp, h1⟩
      · obtain ⟨t, ht, rfl⟩ := ih r h2
        exact ⟨t, by simp [ht], rfl⟩

theorem runTries_trace_length (srv : Server) (v : List Char) :
    ∀ tries : List (Encoding × List Char),
      (runTries srv v tries).2.length ≤ tries.length := by
  intro tries
  induction tries with
  | nil => simp [runTries]
  | cons t rest ih =>
    obtain ⟨enc, k⟩ := t
    rw [runTries]
    cases hs : srv.searchHeader enc k v with
    | some ns =>
      cases ns with
      | cons n l => simp
      | nil =>
        dsimp only
        simp only [List.length_cons]
        omega
    | none =>
      dsimp only
      simp only [List.length_cons]
      omega

/-- Every request of the interactive exact tier (both spellings, one value,
plus the detail fetch of a hit) is neither a reference-chain nor a range
search. -/
theorem search_by_message_id_trace_class (srv : Server) (mid : List Char) :
    ∀ r ∈ (search_by_message_id srv mid).2,
      isRefSearch r = false ∧ isRangeSearch r = false := by
  have honce : ∀ v, ∀ r ∈ (_search_by_message_id_once srv v).2,
      isRefSearch r = false ∧ isRangeSearch r = false := by
    intro v r hr
    obtain ⟨t, ht, rfl⟩ := runTries_trace_shape srv v onceTries r hr
    have hkey : t.2 = midKeyUpper ∨ t.2 = midKeyLower := by
      simp only [onceTries, List.mem_cons, List.not_mem_nil, or_false] at ht
      rcases ht with rfl | rfl | rfl | rfl
      · left; rfl
      · left; rfl
      · right; rfl
      · right; rfl
    constructor
    · rcases hkey with hk | hk
      · rw [hk]
        show (midKeyUpper == refKey || midKeyUpper == inReplyKey) = false
        decide
      · rw [hk]
        show (midKeyLower == refKey || midKeyLower == inReplyKey) = false
        decide
    · rfl
  intro r hr
  unfold search_by_message_id at hr
  dsimp only at hr
  cases h1 : _search_by_message_id_once srv (_normalize_message_id mid).2 with
  | mk nums tr =>
    rw [h1] at hr
    cases nums with
    | cons n ns =>
      dsimp only at hr
      rcases List.mem_append.mp hr with hm | hm
      · exact honce _ r (by rw [h1]; exact hm)
      · rw [List.mem_singleton.mp hm]
        exact ⟨rfl, rfl⟩
    | nil =>
      dsimp only at hr
      cases h2 : _search_by_message_id_once srv (_normalize_message_id mid).1 with
      | mk nums2 tr2 =>
        rw [h2] at hr
        cases nums2 with
        | cons n ns =>
          dsimp only at hr
          rcases List.mem_append.mp hr with hm | hm
          · rcases List.mem_append.mp hm with hm1 | hm2
            · exact honce _ r (by rw [h1]; exact hm1)
            · exact honce _ r (by rw [h2]; exact hm2)
          · rw [List.mem_singleton.mp hm]
            exact ⟨rfl, rfl⟩
        | nil =>
          dsimp only at hr
          rcases List.mem_append.mp hr with hm | hm
          · exact honce _ r (by rw [h1]; exact hm)
          · exact honce _ r (by rw [h2]; exact hm)

theorem emailRefLoop_trace_shape (srv : Server) :
    ∀ ps : List (List Char × List Char), ∀ r ∈ (emailRefLoop srv ps).2,
      (∃ p, p ∈ ps ∧ ∃ e, r = Req.header e p.1 p.2) ∨ (∃ n, r = Req.fetchFull n) := by
  intro ps
  induction ps with
  | nil =>
    intro r hr
    simp [emailRefLoop] at hr
  | cons p rest ih =>
    obtain ⟨k, v⟩ := p
    intro r hr
    rw [emailRefLoop] at hr
    cases htr : try_search_header srv k v with
    | mk nums tr =>
      rw [htr] at hr
      cases nums with
      | cons n ns =>
        dsimp only at hr
        rcases List.mem_append.mp hr with hm | hm
        · obtain ⟨e, rfl⟩ := try_trace_shape srv k v r (by rw [htr]; exact hm)
          exact Or.inl ⟨(k, v), by simp, e, rfl⟩
        · exact Or.inr ⟨n, List.mem_singleton.mp hm⟩
      | nil =>
        dsimp only at hr
        rcases List.mem_append.mp hr with hm | hm
        · obtain ⟨e, rfl⟩ := try_trace_shape srv k v r (by rw [htr]; exact hm)
          exact Or.inl ⟨(k, v), by simp, e, rfl⟩
        · rcases ih r hm with ⟨q, hq, e, rfl⟩ | hn
          · exact Or.inl ⟨q, by simp [hq], e, rfl⟩
          · exact Or.inr hn

theorem emailRefLoop_trace_not_range (srv : Server) (ps : List (List Char × List Char)) :
    ∀ r ∈ (emailRefLoop srv ps).2, isRangeSearch r = false := by
  intro r hr
  rcases emailRefLoop_trace_shape srv ps r hr with ⟨p, _, e, rfl⟩ | ⟨n, rfl⟩
  · rfl
  · rfl

theorem emailHintFilter_trace_shape (srv : Server) (h : List Char) :
    ∀ cands : List Nat, ∀ r ∈ (emailHintFilter srv h cands).2, ∃ n, r = Req.fetchFull n := by
  intro cands
  induction cands with
  | nil =>
    intro r hr
    simp [emailHintFilter] at hr
  | cons n rest ih =>
    intro r hr
    rw [emailHintFilter] at hr
    dsimp only at hr
    rcases List.mem_cons.mp hr with h1 | h2
    · exact ⟨n, h1⟩
    · exact ih r h2

theorem emailPool_trace_shape (srv : Server) (hint : Option (List Char)) (cands : List Nat) :
    ∀ r ∈ (emailPool srv hint cands).2, ∃ n, r = Req.fetchFull n := by
  intro r hr
  unfold emailPool at hr
  cases hint with
  | none => simp at hr
  | some h =>
    dsimp only at hr
    cases hf : emailHintFilter srv h cands with
    | mk f tr =>
      rw [hf] at hr
      have hmem : r ∈ (emailHintFilter srv h cands).2 := by
        rw [hf]
        cases f with
        | nil => exact hr
        | cons a l => exact hr
      exact emailHintFilter_trace_shape srv h cands r hmem

theorem emailVerify_trace_shape (srv : Server) (bare withBr : List Char) :
    ∀ pool : List Nat, ∀ r ∈ (emailVerify srv bare withBr pool).2,
      ∃ n, n ∈ pool ∧ (r = Req.fetchMidHdr n ∨ r = Req.fetchFull n) := by
  intro pool
  induction pool with
  | nil =>
    intro r hr
    simp [emailVerify] at hr
  | cons n rest ih =>
    intro r hr
    rw [emailVerify] at hr
    cases hf : srv.fetchMidHdr n with
    | some hdr =>
      rw [hf] at hr
      dsimp only at hr
      by_cases hc : (containsSeq bare hdr || containsSeq withBr hdr) = true
      · rw [if_pos hc] at hr
        rcases List.mem_cons.mp hr with h1 | h2
        · exact ⟨n, by simp, Or.inl h1⟩
        · exact ⟨n, by simp, Or.inr (List.mem_singleton.mp h2)⟩
      · rw [if_neg hc] at hr
        rcases List.mem_cons.mp hr with h1 | h2
        · exact ⟨n, by simp, Or.inl h1⟩
        · obtain ⟨m, hm, hor⟩ := ih r h2
          exact ⟨m, by simp [hm], hor⟩
    | none =>
      rw [hf] at hr
      dsimp only at hr
      rcases List.mem_cons.mp hr with h1 | h2
      · exact ⟨n, by simp, Or.inl h1⟩
      · obtain ⟨m, hm, hor⟩ := ih r h2
        exact ⟨m, by simp [hm], hor⟩

/-! ## Claim C8 — sender-domain-hint fallback -/

/-- Inspection observer for the batch time-window tier: a request is an
inspection of a pool member. -/
def inspects (pool : List Nat) : Req → Bool
  | Req.fetchMidHdr n => pool.contains n
  | _ => false

/-- Inspection observer for the interactive time-window tier. -/
def emailInspects (pool : List Nat) : Req → Bool
  | Req.fetchMidHdr n => pool.contains n
  | Req.fetchFull n => pool.contains n
  | _ => false

/-- C8: in both variants, if the sender-domain-hint filter empties the
candidate set the tier proceeds with the full unfiltered candidate set; if
it leaves candidates, exactly the filtered candidates become the pool; and
the verification loop inspects only pool members. -/
theorem C8_hint_fallback (srv : Server) (h : List Char) (cands : List Nat)
    (bare withBr : List Char) :
    ((hintFilter srv h cands).1 = [] → (hintPool srv (some h) cands).1 = cands) ∧
    ((hintFilter srv h cands).1 ≠ [] →
      (hintPool srv (some h) cands).1 = (hintFilter srv h cands).1) ∧
    (verifyLoop srv bare withBr ((hintPool srv (some h) cands).1)).2.all
      (inspects ((hintPool srv (some h) cands).1)) = true ∧
    ((emailHintFilter srv h cands).1 = [] → (emailPool srv (some h) cands).1 = cands) ∧
    ((emailHintFilter srv h cands).1 ≠ [] →
      (emailPool srv (some h) cands).1 = (emailHintFilter srv h cands).1) ∧
    (emailVerify srv bare withBr ((emailPool srv (some h) cands).1)).2.all
      (emailInspects ((emailPool srv (some h) cands).1)) = true := by
  refine ⟨?_, ?_, ?_, ?_, ?_, ?_⟩
  · intro he
    unfold hintPool
    dsimp only
    cases hf : hintFilter srv h cands with
    | mk f tr =>
      cases f with
      | nil => rfl
      | cons a l =>
        rw [hf] at he
        simp at he
  · intro hne
    unfold hintPool
    dsimp only
    cases hf : hintFilter srv h cands with
    | mk f tr =>
      cases f with
      | nil =>
        rw [hf] at hne
        simp at hne
      | cons a l => rfl
  · rw [List.all_eq_true]
    intro r hr
    obtain ⟨n, hn, rfl⟩ :=
      verifyLoop_trace_shape srv bare withBr ((hintPool srv (some h) cands).1) r hr
    show ((hintPool srv (some h) cands).1).contains n = true
    simpa using hn
  · intro he
    unfold emailPool
    dsimp only
    cases hf : emailHintFilter srv h cands with
    | mk f tr =>
      cases f with
      | nil => rfl
      | cons a l =>
        rw [hf] at he
        simp at he
  · intro hne
    unfold emailPool
    dsimp only
    cases hf : emailHintFilter srv h cands with
    | mk f tr =>
      cases f with
      | nil =>
        rw [hf] at hne
        simp at hne
      | cons a l => rfl
  · rw [List.all_eq_true]
    intro r hr
    obtain ⟨n, hn, hor⟩ :=
      emailVerify_trace_shape srv bare withBr ((emailPool srv (some h) cands).1) r hr
    rcases hor with rfl | rfl
    · show ((emailPool srv (some h) cands).1).contains n = true
      simpa using hn
    · show ((emailPool srv (some h) cands).1).contains n = true
      simpa using hn

/-- C8 witness: applied with a server whose header fetches all fail, so the
hint filter keeps nothing and the pool falls back to the full candidate
set `[1, 2]`. -/
theorem C8_witness :
    (hintFilter srvMiss ("gmail.com".toList) [1, 2]).1 = [] ∧
    (hintPool srvMiss (some ("gmail.com".toList)) [1, 2]).1 = [1, 2] :=
  ⟨by decide,
    (C8_hint_fallback srvMiss ("gmail.com".toList) [1, 2] [] []).1 (by decide)⟩

/-! ## Claim C4 — the ±1-day window bounds -/

theorem isRange_header (e : Encoding) (k v : List Char) :
    isRangeSearch (Req.header e k v) = false := rfl

theorem isRange_fetchHdrs (n : Nat) : isRangeSearch (Req.fetchHdrs n) = false := rfl

theorem isRange_fetchMidHdr (n : Nat) : isRangeSearch (Req.fetchMidHdr n) = false := rfl

theorem isRange_fetchFull (n : Nat) : isRangeSearch (Req.fetchFull n) = false := rfl

/-- The embedded timestamp `20240213212126` of the claim. -/
def dFeb13 : PyDateTime :=
  { year := 2024, month := 2, day := 13, hour := 21, minute := 21, second := 26 }

/-- The documented example identifier carrying that timestamp. -/
def docMid : List Char := "20240213212126.4429A161827048B0@gmail.com".toList

/-- C4: in both variants, whenever an identifier carries the embedded
timestamp `20240213212126` and the earlier tiers produced nothing, the
time-window tier issues exactly one range search, with lower bound
`12-Feb-2024` and upper bound `14-Feb-2024`. -/
theorem C4_window (srv : Server) (mid : List Char) (hint : Option (List Char))
    (hts : parse_mid_timestamp mid = some dFeb13) :
    ((search_by_mid_in_selected srv mid).1 = [] →
      (deep_search_by_mid srv mid hint).2.filter isRangeSearch =
        [Req.range ("12-Feb-2024".toList) ("14-Feb-2024".toList)]) ∧
    ((search_by_message_id srv mid).1 = none →
      (emailRefLoop srv (refPairs (normalize_mid mid).1 (normalize_mid mid).2)).1 = none →
      (search_by_message_id_deep srv mid hint).2.filter isRangeSearch =
        [Req.range ("12-Feb-2024".toList) ("14-Feb-2024".toList)]) := by
  have hsince : imap_date (dtSubOneDay dFeb13) = "12-Feb-2024".toList := by decide
  have hbefore : imap_date (dtAddOneDay dFeb13) = "14-Feb-2024".toList := by decide
  constructor
  · intro hempty
    unfold deep_search_by_mid
    cases hS : search_by_mid_in_selected srv mid with
    | mk nums tr =>
      have hnil : nums = [] := by
        rw [hS] at hempty
        exact hempty
      subst hnil
      have htr : tr.filter isRangeSearch = [] := by
        refine List.filter_eq_nil_iff.mpr fun r hr => ?_
        have hclass := search_by_mid_trace_not_range srv mid r (by rw [hS]; exact hr)
        simp [hclass]
      dsimp only
      rw [hts]
      dsimp only
      rw [hsince, hbefore]
      cases hR : srv.searchRange ("12-Feb-2024".toList) ("14-Feb-2024".toList) with
      | none =>
        dsimp only
        rw [List.filter_append, htr]
        rfl
      | some cs =>
        cases cs with
        | nil =>
          dsimp only
          rw [List.filter_append, htr]
          rfl
        | cons c cs =>
          dsimp only
          have hpool : (hintPool srv hint (c :: cs)).2.filter isRangeSearch = [] := by
            refine List.filter_eq_nil_iff.mpr fun r hr => ?_
            obtain ⟨n, rfl⟩ := hintPool_trace_shape srv hint (c :: cs) r hr
            simp [isRange_fetchHdrs]
          have hv : (verifyLoop srv (normalize_mid mid).1 (normalize_mid mid).2
              (hintPool srv hint (c :: cs)).1).2.filter isRangeSearch = [] := by
            refine List.filter_eq_nil_iff.mpr fun r hr => ?_
            obtain ⟨n, _, rfl⟩ := verifyLoop_trace_shape srv _ _ _ r hr
            simp [isRange_fetchMidHdr]
          rw [List.filter_append, List.filter_append, List.filter_append, htr, hpool, hv]
          rfl
  · intro h1 h2
    unfold search_by_message_id_deep
    cases hS : search_by_message_id srv mid with
    | mk res tr =>
      have hres : res = none := by
        rw [hS] at h1
        exact h1
      subst hres
      have htr : tr.filter isRangeSearch = [] := by
        refine List.filter_eq_nil_iff.mpr fun r hr => ?_
        have hclass := (search_by_message_id_trace_class srv mid r (by rw [hS]; exact hr)).2
        simp [hclass]
      dsimp only
      unfold _normalize_message_id _parse_mid_timestamp
      cases hRL : emailRefLoop srv (refPairs (normalize_mid mid).1 (normalize_mid mid).2) with
      | mk rres tr2 =>
        have hrr : rres = none := by
          rw [hRL] at h2
          exact h2
        subst hrr
        have htr2 : tr2.filter isRangeSearch = [] := by
          refine List.filter_eq_nil_iff.mpr fun r hr => ?_
          have hclass := emailRefLoop_trace_not_range srv _ r (by rw [hRL]; exact hr)
          simp [hclass]
        dsimp only
        rw [hts]
        dsimp only
        rw [hsince, hbefore]
        cases hR : srv.searchRange ("12-Feb-2024".toList) ("14-Feb-2024".toList) with
        | none =>
          dsimp only
          rw [List.filter_append, List.filter_append, htr, htr2]
          rfl
        | some cs =>
          cases cs with
          | nil =>
            dsimp only
            rw [List.filter_append, List.filter_append, htr, htr2]
            rfl
          | cons c cs =>
            dsimp only
            have hpool : (emailPool srv hint (c :: cs)).2.filter isRangeSearch = [] := by
              refine List.filter_eq_nil_iff.mpr fun r hr => ?_
              obtain ⟨n, rfl⟩ := emailPool_trace_shape srv hint (c :: cs) r hr
              simp [isRange_fetchFull]
            have hv : (emailVerify srv (normalize_mid mid).1 (normalize_mid mid).2
                (emailPool srv hint (c :: cs)).1).2.filter isRangeSearch = [] := by
              refine List.filter_eq_nil_iff.mpr fun r hr => ?_
              obtain ⟨n, _, hor⟩ := emailVerify_trace_shape srv _ _ _ r hr
              rcases hor with rfl | rfl
              · simp [isRange_fetchMidHdr]
              · simp [isRange_fetchFull]
            rw [List.filter_append, List.filter_append, List.filter_append,
              List.filter_append, htr, htr2, hpool, hv]
            rfl

/-- C4 witness: the theorem applied to the documented example identifier
against a server on which every earlier tier misses. -/
theorem C4_witness :
    parse_mid_timestamp docMid = some dFeb13 ∧
    (search_by_mid_in_selected srvMiss docMid).1 = [] ∧
    (deep_search_by_mid srvMiss docMid none).2.filter isRangeSearch =
      [Req.range ("12-Feb-2024".toList) ("14-Feb-2024".toList)] :=
  ⟨by decide, by decide,
    (C4_window srvMiss docMid none (by decide)).1 (by decide)⟩

/-! ## Claim C3 — attempts and requests of the exact tier

Each (spelling × delimiter-form) attempt of the batch variant issues one or
two remote requests (structured encoding first, quoted-literal second), not
exactly one; with four attempts the tier can issue up to eight remote
requests. -/

theorem searchHeaderList_short_circuit (srv : Server) :
    ∀ (pre : List (List Char × List Char)) (p : List Char × List Char)
      (post : List (List Char × List Char)),
      (∀ q ∈ pre, (try_search_header srv q.1 q.2).1 = []) →
      (try_search_header srv p.1 p.2).1 ≠ [] →
      searchHeaderList srv (pre ++ p :: post) =
        ((try_search_header srv p.1 p.2).1,
          (pre.map fun q => (try_search_header srv q.1 q.2).2).flatten ++
            (try_search_header srv p.1 p.2).2) := by
  intro pre
  induction pre with
  | nil =>
    intro p post _ hp
    obtain ⟨k, v⟩ := p
    rw [List.nil_append, searchHeaderList]
    cases htr : try_search_header srv k v with
    | mk nums tr =>
      cases nums with
      | nil =>
        rw [htr] at hp
        simp at hp
      | cons n ns =>
        dsimp only
        simp
  | cons q pre ih =>
    intro p post hpre hp
    obtain ⟨k, v⟩ := q
    rw [List.cons_append, searchHeaderList]
    cases htr : try_search_header srv k v with
    | mk nums tr =>
      have hq : nums = [] := by
        have hh := hpre (k, v) (by simp)
        rw [htr] at hh
        exact hh
      subst hq
      dsimp only
      rw [ih p post (fun r hr => hpre r (by simp [hr])) hp]
      rw [List.map_cons, List.flatten_cons]
      rw [htr]
      simp [List.append_assoc]

/-- C3 (amended): for the `ExactHeaderMatch` tier on one mailbox the batch
engine makes at most four attempts — one per (field-name-spelling ×
delimiter-form) combination — short-circuiting on the first attempt whose
result set is non-empty; each attempt issues one or two remote search
requests (the structured encoding first and, if it fails or returns an
empty set, the quoted-literal encoding), so the tier issues at most eight
remote requests; the interactive variant issues at most four single-request
attempts (spelling × encoding) per delimiter form. -/
theorem C3_attempts (srv : Server) (b w : List Char)
    (pre post : List (List Char × List Char)) (p : List Char × List Char)
    (hsplit : midPairs b w = pre ++ p :: post)
    (hpre : ∀ q ∈ pre, (try_search_header srv q.1 q.2).1 = [])
    (hp : (try_search_header srv p.1 p.2).1 ≠ []) :
    searchHeaderList srv (midPairs b w) =
      ((try_search_header srv p.1 p.2).1,
        (pre.map fun q => (try_search_header srv q.1 q.2).2).flatten ++
          (try_search_header srv p.1 p.2).2) ∧
    (searchHeaderList srv (midPairs b w)).2.length ≤ 8 ∧
    (∀ k v : List Char, 1 ≤ (try_search_header srv k v).2.length ∧
      (try_search_header srv k v).2.length ≤ 2) ∧
    (∀ v : List Char, (_search_by_message_id_once srv v).2.length ≤ 4) := by
  refine ⟨?_, ?_, fun k v => try_trace_length srv k v, fun v => ?_⟩
  · rw [hsplit]
    exact searchHeaderList_short_circuit srv pre p post hpre hp
  · have hlen := searchHeaderList_trace_length srv (midPairs b w)
    have h4 : (midPairs b w).length = 4 := rfl
    rw [h4] at hlen
    omega
  · have hlen := runTries_trace_length srv v onceTries
    have h4 : onceTries.length = 4 := rfl
    rw [h4] at hlen
    exact hlen

/-- C3 counterexample: against a server on which every header search
returns an empty result set, the exact tier of the batch engine issues
eight remote search requests, contradicting the claimed bound of four
(four attempts of exactly one request each). -/
theorem C3_counterexample :
    (searchHeaderList srvMiss (midPairs (normalize_mid ("x".toList)).1
        (normalize_mid ("x".toList)).2)).2.length = 8 ∧
    ¬ (searchHeaderList srvMiss (midPairs (normalize_mid ("x".toList)).1
        (normalize_mid ("x".toList)).2)).2.length ≤ 4 := by
  decide

/-- Server whose header searches always return the sequence number 5. -/
def srvHit : Server :=
  { searchHeader := fun _ _ _ => some [5]
    searchRange := fun _ _ => some []
    fetchHdrs := fun _ => none
    fetchMidHdr := fun _ => none
    fetchFull := fun _ => none }

/-- C3 witness: the amended theorem applied where the very first attempt
hits, so the tier stops after that attempt's first request. -/
theorem C3_witness :
    (try_search_header srvHit midKeyUpper ("<x>".toList)).1 ≠ [] ∧
    searchHeaderList srvHit (midPairs ("x".toList) ("<x>".toList)) =
      ((try_search_header srvHit midKeyUpper ("<x>".toList)).1,
        (try_search_header srvHit midKeyUpper ("<x>".toList)).2) := by
  constructor
  · decide
  · have h := (C3_attempts srvHit ("x".toList) ("<x>".toList) []
      [(midKeyUpper, "x".toList), (midKeyLower, "<x>".toList), (midKeyLower, "x".toList)]
      (midKeyUpper, "<x>".toList) rfl (by simp) (by decide)).1
    simpa using h

/-! ## Claim C1 — tier precedence

In the batch engine a non-empty exact tier suppresses the later tiers
unconditionally. In the interactive variant the exact tier's hit is piped
through a full-message fetch, and when that fetch fails the engine falls
through to the reference-chain and time-window tiers even though the exact
header search returned a non-empty set — refuting the claim as stated. -/

/-- A request that belongs neither to the reference-chain tier nor to the
time-window tier. -/
def notRefRange (r : Req) : Bool := !isRefSearch r && !isRangeSearch r

/-- A request that does not belong to the time-window tier. -/
def notRange (r : Req) : Bool := !isRangeSearch r

/-- C1 (amended): per mailbox visit of the batch engine, a non-empty exact
tier is final — no reference-chain or range search is issued and its result
is the visit's result — and with an empty exact tier a non-empty
reference-chain tier is final and no range search is issued; in the
interactive variant the same holds for the exact tier provided the
subsequent detail fetch of the hit succeeds. -/
theorem C1_tier_precedence (srv : Server) (mid : List Char) (hint : Option (List Char)) :
    ((searchHeaderList srv (midPairs (normalize_mid mid).1 (normalize_mid mid).2)).1 ≠ [] →
      visit srv mid hint =
        searchHeaderList srv (midPairs (normalize_mid mid).1 (normalize_mid mid).2) ∧
      (visit srv mid hint).2.all notRefRange = true) ∧
    ((searchHeaderList srv (midPairs (normalize_mid mid).1 (normalize_mid mid).2)).1 = [] →
      (searchHeaderList srv (refPairs (normalize_mid mid).1 (normalize_mid mid).2)).1 ≠ [] →
      (visit srv mid hint).1 =
        (searchHeaderList srv (refPairs (normalize_mid mid).1 (normalize_mid mid).2)).1 ∧
      (visit srv mid hint).2.all notRange = true) ∧
    (∀ info : EmailInfo, (search_by_message_id srv mid).1 = some info →
      search_by_message_id_deep srv mid hint = (some info, (search_by_message_id srv mid).2) ∧
      (search_by_message_id srv mid).2.all notRefRange = true) := by
  refine ⟨?_, ?_, ?_⟩
  · intro hE
    cases hm : searchHeaderList srv (midPairs (normalize_mid mid).1 (normalize_mid mid).2) with
    | mk nums tr =>
      cases nums with
      | nil =>
        rw [hm] at hE
        simp at hE
      | cons n ns =>
        have hsb : search_by_mid_in_selected srv mid = (n :: ns, tr) := by
          unfold search_by_mid_in_selected
          dsimp only
          rw [hm]
        have hv : visit srv mid hint = (n :: ns, tr) := by
          unfold visit
          rw [hsb]
        constructor
        · rw [hv]
        · rw [hv]
          rw [List.all_eq_true]
          intro r hr
          have hc := midPairs_trace_class srv (normalize_mid mid).1 (normalize_mid mid).2 r
            (by rw [hm]; exact hr)
          simp [notRefRange, hc.1, hc.2]
  · intro hE hR
    cases hm : searchHeaderList srv (midPairs (normalize_mid mid).1 (normalize_mid mid).2) with
    | mk nums tr =>
      have hnil : nums = [] := by
        rw [hm] at hE
        exact hE
      subst hnil
      cases hrf : searchHeaderList srv (refPairs (normalize_mid mid).1 (normalize_mid mid).2) with
      | mk rnums tr2 =>
        cases rnums with
        | nil =>
          rw [hrf] at hR
          simp at hR
        | cons n ns =>
          have hsb : search_by_mid_in_selected srv mid = (n :: ns, tr ++ tr2) := by
            unfold search_by_mid_in_selected
            dsimp only
            rw [hm]
            dsimp only
            rw [hrf]
          have hv : visit srv mid hint = (n :: ns, tr ++ tr2) := by
            unfold visit
            rw [hsb]
          constructor
          · rw [hv]
          · rw [hv]
            rw [List.all_eq_true]
            intro r hr
            rcases List.mem_append.mp hr with h1 | h2
            · have hc := midPairs_trace_class srv (normalize_mid mid).1 (normalize_mid mid).2 r
                (by rw [hm]; exact h1)
              simp [notRange, hc.2]
            · have hc := refPairs_trace_class srv (normalize_mid mid).1 (normalize_mid mid).2 r
                (by rw [hrf]; exact h2)
              simp [notRange, hc.2]
  · intro info hI
    cases hS : search_by_message_id srv mid with
    | mk res tr =>
      have hres : res = some info := by
        rw [hS] at hI
        exact hI
      subst hres
      have hd : search_by_message_id_deep srv mid hint = (some info, tr) := by
        unfold search_by_message_id_deep
        rw [hS]
      constructor
      · rw [hd]
      · rw [List.all_eq_true]
        intro r hr
        have hc := search_by_message_id_trace_class srv mid r (by rw [hS]; exact hr)
        simp [notRefRange, hc.1, hc.2]

/-- Server for the C1 counterexample: the exact header search hits sequence
number 1 but every fetch fails. -/
def srvFetchFail : Server :=
  { searchHeader := fun _ k _ => if k == midKeyUpper || k == midKeyLower then some [1] else some []
    searchRange := fun _ _ => some []
    fetchHdrs := fun _ => none
    fetchMidHdr := fun _ => none
    fetchFull := fun _ => none }

/-- C1 counterexample: in the interactive variant, the exact-tier header
search returns the non-empty set `[1]`, yet because the detail fetch of
that hit fails the engine goes on to issue reference-chain searches for the
same mailbox, so the claim as stated is false at this input. -/
theorem C1_counterexample :
    (_search_by_message_id_once srvFetchFail (normalize_mid ("x".toList)).2).1 ≠ [] ∧
    ((search_by_message_id_deep srvFetchFail ("x".toList) none).2.any isRefSearch) = true := by
  decide

/-- C1 witness: the amended theorem applied where the first exact attempt
hits, so the visit issues no reference-chain and no range search. -/
theorem C1_witness :
    (searchHeaderList srvHit (midPairs (normalize_mid ("x".toList)).1
        (normalize_mid ("x".toList)).2)).1 ≠ [] ∧
    (visit srvHit ("x".toList) none =
      searchHeaderList srvHit (midPairs (normalize_mid ("x".toList)).1
        (normalize_mid ("x".toList)).2) ∧
    (visit srvHit ("x".toList) none).2.all notRefRange = true) :=
  ⟨by decide, (C1_tier_precedence srvHit ("x".toList) none).1 (by decide)⟩

/-- Session for the C2 counterexample: the only mailbox returns two
sequence numbers for the exact header search. -/
def srvTwo : Server :=
  { searchHeader := fun _ k _ => if k == midKeyUpper then some [1, 2] else some []
    searchRange := fun _ _ => some []
    fetchHdrs := fun _ => none
    fetchMidHdr := fun _ => none
    fetchFull := fun _ => none }

def sessTwo : Session := ⟨fun _ => some srvTwo⟩

/-- C2 counterexample: an identifier matched by two sequence numbers in the
first mailbox produces two result records, not exactly one, so the claim as
stated is false at this input. -/
theorem C2_counterexample :
    (resolve_one sessTwo ["INBOX".toList] ("x".toList)).length = 2 ∧
    ¬ (resolve_one sessTwo ["INBOX".toList] ("x".toList)).length = 1 := by
  decide

/-- C2 witness: the theorem applied to a session in which no mailbox
matches, showing the single empty row for the unmatched identifier. -/
theorem C2_witness :
    scanBoxes (Session.mk fun _ => some srvMiss) ("x".toList) (hintOf ("x".toList))
        ["INBOX".toList] = none ∧
    resolve_one (Session.mk fun _ => some srvMiss) ["INBOX".toList] ("x".toList) =
      [emptyRow ("x".toList)] :=
  ⟨by decide,
    (C2_per_identifier (Session.mk fun _ => some srvMiss) ["INBOX".toList] []
      ("x".toList)).2.2 (by decide)⟩

end ImapMid
